import Mathlib

/-
Verification of the tool-use orchestration loop of `smart_chat_client.py`
(with the tool registry of `mcp_server.py`), as a shallow embedding.

Conventions of the embedding:
  * Python strings are Lean `String`s; Python slicing `s[:n]` is `pySlice`.
  * `json.loads` is modelled by `jsonLoads`, a recursive-descent parser for
    the grammar the Python `json` module accepts (strict mode, including the
    default `NaN`/`Infinity`/`-Infinity` constants).  Integer literals are
    kept as `Int`; non-integer numeric literals are kept as their source
    text (`fnum`), since no property here depends on float arithmetic.
    Resource exhaustion (recursion limits) is below the abstraction level.
  * The raw-string regex `\x7b[^\x7b\x7d]*(?:\x7b[^\x7b\x7d]*\x7d[^\x7b\x7d]*)*\x7d`
    used with `re.finditer` is modelled by `scanClose`/`reFinditer`:
    a match starts at a literal open brace and extends to the first brace
    that returns the depth to zero, failing if the depth would exceed two;
    `finditer` scans left to right and resumes after each match.
  * The Ollama HTTP gateway and the MCP tool executor are external
    collaborators; the loop takes them as oracles in `Env`.  The gateway
    oracle is indexed by the sequence number of the call and receives the
    system prompt and the prompt actually built by the loop.
  * `RunResult` records the observable outcome of one orchestration run:
    the returned value (`none` models Python falling off the function end
    and returning `None`), the number of gateway calls, and the exact
    sequence of invocations passed to the external tool executor.
-/

/-- JSON values as produced by `json.loads`.  Objects keep their key order
(and possible duplicate keys) as parsed; `dictGet` below gives the Python
`dict` view (last duplicate wins). -/
inductive JsonVal where
  | null
  | bool (b : Bool)
  | num (n : Int)
  | fnum (lit : String)
  | str (s : String)
  | arr (xs : List JsonVal)
  | obj (fields : List (String × JsonVal))

/-- Whitespace skipped by the Python `json` scanner: space, tab, LF, CR. -/
def skipWs : List Char → List Char
  | c :: cs =>
    if c = ' ' ∨ c = Char.ofNat 9 ∨ c = Char.ofNat 10 ∨ c = Char.ofNat 13 then skipWs cs
    else c :: cs
  | [] => []

/-- Value of one hexadecimal digit, as in `\uXXXX` escapes. -/
def hexVal (c : Char) : Option Nat :=
  if '0' ≤ c ∧ c ≤ '9' then some (c.toNat - 48)
  else if 'a' ≤ c ∧ c ≤ 'f' then some (c.toNat - 87)
  else if 'A' ≤ c ∧ c ≤ 'F' then some (c.toNat - 55)
  else none

/-- Single-character escapes accepted inside JSON strings. -/
def escChar (c : Char) : Option Char :=
  if c = '"' then some '"'
  else if c = Char.ofNat 92 then some (Char.ofNat 92)
  else if c = '/' then some '/'
  else if c = 'b' then some (Char.ofNat 8)
  else if c = 'f' then some (Char.ofNat 12)
  else if c = 'n' then some (Char.ofNat 10)
  else if c = 'r' then some (Char.ofNat 13)
  else if c = 't' then some (Char.ofNat 9)
  else none

/-- Combine four hex digits into a code unit. -/
def hex4 (a b c d : Char) : Option Nat :=
  match hexVal a, hexVal b, hexVal c, hexVal d with
  | some x, some y, some z, some w => some (((x * 16 + y) * 16 + z) * 16 + w)
  | _, _, _, _ => none

/-- Body of a JSON string after the opening quote, strict mode: raw control
characters are rejected, the listed escapes and `\uXXXX` (with surrogate
pairing as in the Python decoder) are accepted.  Lean `Char` cannot hold a
lone surrogate, which `Char.ofNat` maps to the null character; no property
proved here depends on that corner.  Returns the decoded content and the
rest after the closing quote.  The fuel argument only bounds the recursion;
every step consumes at least one character, so `parseJString` below, which
supplies `length + 1`, behaves as the unbounded scanner. -/
def parseJStringAux : Nat → List Char → Option (List Char × List Char)
  | 0, _ => none
  | _, [] => none
  | fuel + 1, c :: rest =>
    if c = '"' then some ([], rest)
    else if c = Char.ofNat 92 then
      match rest with
      | 'u' :: a :: b :: cc :: d :: rest2 =>
        (match hex4 a b cc d with
         | none => none
         | some n =>
           if 0xD800 ≤ n ∧ n ≤ 0xDBFF then
             match rest2 with
             | e1 :: 'u' :: a2 :: b2 :: c2 :: d2 :: rest3 =>
               if e1 = Char.ofNat 92 then
                 match hex4 a2 b2 c2 d2 with
                 | some m =>
                   if 0xDC00 ≤ m ∧ m ≤ 0xDFFF then
                     (parseJStringAux fuel rest3).map
                       (fun p => (Char.ofNat (0x10000 + (n - 0xD800) * 1024 + (m - 0xDC00)) :: p.1, p.2))
                   else
                     (parseJStringAux fuel rest2).map (fun p => (Char.ofNat n :: p.1, p.2))
                 | none => (parseJStringAux fuel rest2).map (fun p => (Char.ofNat n :: p.1, p.2))
               else
                 (parseJStringAux fuel rest2).map (fun p => (Char.ofNat n :: p.1, p.2))
             | _ => (parseJStringAux fuel rest2).map (fun p => (Char.ofNat n :: p.1, p.2))
           else
             (parseJStringAux fuel rest2).map (fun p => (Char.ofNat n :: p.1, p.2)))
      | e :: rest2 =>
        (match escChar e with
         | some ch => (parseJStringAux fuel rest2).map (fun p => (ch :: p.1, p.2))
         | none => none)
      | [] => none
    else if c.toNat < 32 then none
    else (parseJStringAux fuel rest).map (fun p => (c :: p.1, p.2))

/-- JSON string body with ample fuel. -/
def parseJString (cs : List Char) : Option (List Char × List Char) :=
  parseJStringAux (cs.length + 1) cs

/-- Longest leading run of decimal digits. -/
def takeDigits : List Char → List Char × List Char
  | c :: cs =>
    if c.isDigit then
      let p := takeDigits cs
      (c :: p.1, p.2)
    else ([], c :: cs)
  | [] => ([], [])

/-- Numeric value of a digit run. -/
def digitsToNat (ds : List Char) : Nat :=
  ds.foldl (fun n c => n * 10 + (c.toNat - 48)) 0

/-- Optional fraction and exponent parts and final classification of a JSON
number, mirroring the Python `json` number regex
`(-?(?:0|[1-9]\d*))(\.\d+)?([eE][-+]?\d+)?`: a fraction or exponent makes
the literal a float (kept as text), otherwise it is an integer. -/
def finishNumber (neg : Bool) (intPart : List Char) (rest : List Char) :
    Option (JsonVal × List Char) :=
  let fr : List Char × List Char :=
    match rest with
    | '.' :: r =>
      let p := takeDigits r
      if p.1.isEmpty then ([], rest) else ('.' :: p.1, p.2)
    | _ => ([], rest)
  let ex : List Char × List Char :=
    match fr.2 with
    | e :: r =>
      if e = 'e' ∨ e = 'E' then
        let sg : List Char × List Char :=
          match r with
          | s :: rr => if s = '+' ∨ s = '-' then ([s], rr) else ([], s :: rr)
          | [] => ([], [])
        let p := takeDigits sg.2
        if p.1.isEmpty then ([], fr.2) else (e :: (sg.1 ++ p.1), p.2)
      else ([], fr.2)
    | [] => ([], fr.2)
  if fr.1.isEmpty ∧ ex.1.isEmpty then
    let n : Int := Int.ofNat (digitsToNat intPart)
    some (JsonVal.num (if neg then -n else n), ex.2)
  else
    some (JsonVal.fnum (String.mk ((if neg then [Char.ofNat 45] else []) ++ intPart ++ fr.1 ++ ex.1)), ex.2)

/-- JSON number literal at the head of the input, Python `json` semantics:
optional minus, then `0` or a nonzero-led digit run (no leading zeros). -/
def parseNumber (cs : List Char) : Option (JsonVal × List Char) :=
  let sp : Bool × List Char :=
    match cs with
    | '-' :: r => (true, r)
    | _ => (false, cs)
  match sp.2 with
  | '0' :: r1 => finishNumber sp.1 ['0'] r1
  | c :: r1 =>
    if c.isDigit then
      let p := takeDigits r1
      finishNumber sp.1 (c :: p.1) p.2
    else none
  | [] => none

mutual

/-- JSON value at the head of the input (leading whitespace already
skipped), with fuel to bound nesting; `jsonLoads` supplies ample fuel. -/
def parseValue : Nat → List Char → Option (JsonVal × List Char)
  | 0, _ => none
  | fuel + 1, cs =>
    match cs with
    | '"' :: rest => (parseJString rest).map (fun p => (JsonVal.str (String.mk p.1), p.2))
    | '{' :: rest =>
      (match skipWs rest with
       | '}' :: r2 => some (JsonVal.obj [], r2)
       | cs2 => parseMembers fuel cs2 [])
    | '[' :: rest =>
      (match skipWs rest with
       | ']' :: r2 => some (JsonVal.arr [], r2)
       | cs2 => parseElements fuel cs2 [])
    | 't' :: 'r' :: 'u' :: 'e' :: rest => some (JsonVal.bool true, rest)
    | 'f' :: 'a' :: 'l' :: 's' :: 'e' :: rest => some (JsonVal.bool false, rest)
    | 'n' :: 'u' :: 'l' :: 'l' :: rest => some (JsonVal.null, rest)
    | 'N' :: 'a' :: 'N' :: rest => some (JsonVal.fnum ("NaN"), rest)
    | 'I' :: 'n' :: 'f' :: 'i' :: 'n' :: 'i' :: 't' :: 'y' :: rest =>
      some (JsonVal.fnum ("Infinity"), rest)
    | '-' :: 'I' :: 'n' :: 'f' :: 'i' :: 'n' :: 'i' :: 't' :: 'y' :: rest =>
      some (JsonVal.fnum ("-Infinity"), rest)
    | _ => parseNumber cs

/-- Members of a JSON object after the opening brace (whitespace skipped,
non-empty case): `"key" ws : ws value ws (, ws ...)* ws `. -/
def parseMembers : Nat → List Char → List (String × JsonVal) →
    Option (JsonVal × List Char)
  | 0, _, _ => none
  | fuel + 1, cs, acc =>
    match cs with
    | '"' :: rest =>
      (match parseJString rest with
       | some (kchars, r1) =>
         (match skipWs r1 with
          | ':' :: r2 =>
            (match parseValue fuel (skipWs r2) with
             | some (v, r3) =>
               let acc2 := acc ++ [(String.mk kchars, v)]
               (match skipWs r3 with
                | ',' :: r4 => parseMembers fuel (skipWs r4) acc2
                | '}' :: r4 => some (JsonVal.obj acc2, r4)
                | _ => none)
             | none => none)
          | _ => none)
       | none => none)
    | _ => none

/-- Elements of a JSON array after the opening bracket (whitespace skipped,
non-empty case). -/
def parseElements : Nat → List Char → List JsonVal →
    Option (JsonVal × List Char)
  | 0, _, _ => none
  | fuel + 1, cs, acc =>
    match parseValue fuel cs with
    | some (v, r1) =>
      (match skipWs r1 with
       | ',' :: r2 => parseElements fuel (skipWs r2) (acc ++ [v])
       | ']' :: r2 => some (JsonVal.arr (acc ++ [v]), r2)
       | _ => none)
    | none => none

end

/-- Model of `json.loads`: skip surrounding whitespace, parse one value,
require the input to be exhausted.  `none` models a raised
`json.JSONDecodeError`. -/
def jsonLoads (s : String) : Option JsonVal :=
  let cs := skipWs s.data
  match parseValue (cs.length + 1) cs with
  | some (v, rest) => if (skipWs rest).isEmpty then some v else none
  | none => none

/-- Scanner for the tool-call regex of `_extract_tool_calls`.  Called just
after an open brace with the current depth `d` (1 or 2), it consumes up to
and including the brace that returns the depth to zero and returns the
consumed characters together with the rest; it fails where the regex
backtracking fails: a third nesting level or an unclosed brace. -/
def scanClose : List Char → Nat → Option (List Char × List Char)
  | [], _ => none
  | c :: cs, d =>
    if c = '}' then
      if d = 1 then some ([c], cs)
      else
        match scanClose cs (d - 1) with
        | some (m, r) => some (c :: m, r)
        | none => none
    else if c = '{' then
      if 2 ≤ d then none
      else
        match scanClose cs (d + 1) with
        | some (m, r) => some (c :: m, r)
        | none => none
    else
      match scanClose cs d with
      | some (m, r) => some (c :: m, r)
      | none => none

/-- One step of `re.finditer`: try each position left to right; at an open
brace attempt the balanced-to-depth-two match and, on success, emit it and
resume after its end.  The fuel only bounds the recursion; `reFinditer`
supplies the canonical fuel (the input length), which every step preserves
or exceeds. -/
def finditerAux : Nat → List Char → List (List Char)
  | 0, _ => []
  | _ + 1, [] => []
  | fuel + 1, c :: cs =>
    if c = '{' then
      match scanClose cs 1 with
      | some (m, rest) => ('{' :: m) :: finditerAux fuel rest
      | none => finditerAux fuel cs
    else finditerAux fuel cs

/-- All matches of the tool-call pattern, in order of appearance, without
overlap, as produced by `re.finditer`. -/
def reFinditer (cs : List Char) : List (List Char) :=
  finditerAux cs.length cs

/-- True when the brace scan started at depth `d` runs off the end of the
input while a brace is still open — an unmatched open brace, whose match
attempt would continue into whatever text follows.  False when the scan
closes or hard-fails (third nesting level) within the input. -/
def scanHangs : List Char → Nat → Bool
  | [], _ => true
  | c :: cs, d =>
    if c = '}' then
      if d = 1 then false else scanHangs cs (d - 1)
    else if c = '{' then
      if 2 ≤ d then false else scanHangs cs (d + 1)
    else scanHangs cs d

/-- The `re.finditer` pass over a text is self-contained: every open brace
the scan visits either completes its match or hard-fails within the text —
no unmatched open brace is left pending for a continuation.  Mirrors the
traversal of `finditerAux`; the fuel only bounds the recursion and
`cleanScan` supplies the canonical fuel. -/
def cleanScanAux : Nat → List Char → Bool
  | 0, _ => true
  | _ + 1, [] => true
  | fuel + 1, c :: cs =>
    if c = '{' then
      match scanClose cs 1 with
      | some (_, rest) => cleanScanAux fuel rest
      | none => if scanHangs cs 1 then false else cleanScanAux fuel cs
    else cleanScanAux fuel cs

/-- No unmatched open brace anywhere in the scanner traversal of `cs`. -/
def cleanScan (cs : List Char) : Bool :=
  cleanScanAux cs.length cs

/-- Python `str.replace` of every single quote by a double quote, applied
by `_extract_tool_calls` to each candidate before `json.loads`. -/
def quoteFix (cs : List Char) : List Char :=
  cs.map (fun c => if c = Char.ofNat 39 then '"' else c)

/-- Python `dict.get` view of a parsed JSON object: the value of the last
occurrence of the key, since `json.loads` builds its `dict` by successive
assignment. -/
def dictGet (fields : List (String × JsonVal)) (k : String) : Option JsonVal :=
  fields.foldl (fun acc p => if p.1 = k then some p.2 else acc) none

/-- A tool call as built by `_extract_tool_calls`: the raw value of the
`"tool"` field (the code does not require it to be a string) and the
argument pairs.  -/
structure ToolCall where
  tool : JsonVal
  args : List (String × JsonVal)

/-- The `args` the code keeps for a parsed candidate object: the `"args"`
field when present and itself a mapping, the empty mapping otherwise
(`if not isinstance(args, dict): args = \x7b\x7d`). -/
def argsOf (fields : List (String × JsonVal)) : List (String × JsonVal) :=
  match dictGet fields ("args") with
  | some (JsonVal.obj a) => a
  | _ => []

/-- Loop body of `_extract_tool_calls` for one regex match: fix quotes,
parse, and keep the candidate only if it parses to an object with a
`"tool"` field; every parse failure (`none`) models an exception caught by
the `except (json.JSONDecodeError, ValueError, TypeError)` clause. -/
def candidateCall (jsonStr : List Char) : Option ToolCall :=
  match jsonLoads (String.mk (quoteFix jsonStr)) with
  | some (JsonVal.obj fields) =>
    (match dictGet fields ("tool") with
     | some toolName => some { tool := toolName, args := argsOf fields }
     | none => none)
  | _ => none

/-- Core of `SmartChatClient._extract_tool_calls` on a character list. -/
def extractCalls (cs : List Char) : List ToolCall :=
  (reFinditer cs).filterMap candidateCall

/-- `SmartChatClient._extract_tool_calls`: scan the model reply for
brace-delimited candidates and keep those that parse to tool-call objects,
in left-to-right order. -/
def extract_tool_calls (response : String) : List ToolCall :=
  extractCalls response.data

mutual

/-- Python `str()` / `repr()` of values parsed from JSON, used only to
interpolate values into message text (`f`-strings).  `repr` of strings is
approximated without escape processing; none of the proved properties
inspects this text. -/
def pyRepr : JsonVal → String
  | JsonVal.null => "None"
  | JsonVal.bool true => "True"
  | JsonVal.bool false => "False"
  | JsonVal.num n => toString n
  | JsonVal.fnum lit => lit
  | JsonVal.str s => "\u0027" ++ s ++ "\u0027"
  | JsonVal.arr xs => "[" ++ pyReprList xs ++ "]"
  | JsonVal.obj fs => "\x7b" ++ pyReprFields fs ++ "\x7d"

/-- Comma-separated `repr` of list elements. -/
def pyReprList : List JsonVal → String
  | [] => ""
  | [x] => pyRepr x
  | x :: xs => pyRepr x ++ ", " ++ pyReprList xs

/-- Comma-separated `repr` of dict items. -/
def pyReprFields : List (String × JsonVal) → String
  | [] => ""
  | [(k, v)] => "\u0027" ++ k ++ "\u0027: " ++ pyRepr v
  | (k, v) :: fs => "\u0027" ++ k ++ "\u0027: " ++ pyRepr v ++ ", " ++ pyReprFields fs

end

/-- Python `str()` of a value parsed from JSON (`str` of a `str` is
itself; containers and the rest render as their `repr`). -/
def pyStr : JsonVal → String
  | JsonVal.str s => s
  | v => pyRepr v

/-- One tool as reported by the MCP server at session start (the Registry
entry): its name and description.  The `inputSchema` of the real descriptor
is omitted because `_format_tools_description` never renders it (the schema
arrives as a `dict`, which has no `properties` attribute, so the
`hasattr(schema, "properties")` branch of the source is dead). -/
structure ToolDescriptor where
  name : String
  description : String

/-- The Registry of `mcp_server.py`: the six tools the FastMCP server
registers, with their declared names and descriptions (decorator argument
or, failing that, the function docstring). -/
def server_tools : List ToolDescriptor :=
  [ { name := "get_current_time", description := "Повертає поточний час." },
    { name := "sum", description := "Обчислює суму двох цілих чисел. Параметри: a (int), b (int)" },
    { name := "get_date", description := "Повертає поточну дату у форматі YYYY-MM-DD" },
    { name := "multiply", description := "Множить два числа. Параметри: a (float), b (float)" },
    { name := "read_notes", description := "Читає вміст файлу notes.txt з кореня проекту" },
    { name := "search_duckduckgo", description := "Пошук інформації в інтернеті через DuckDuckGo API. Параметри: query (str), max_results (int, за замовчуванням 5)" } ]

/-- The `sum` tool of `mcp_server.py`. -/
def calculate_sum (a b : Int) : Int := a + b

/-- The `multiply` tool of `mcp_server.py`, on integer inputs (its float
behaviour is outside the scope of the claims). -/
def multiply_numbers (a b : Int) : Int := a * b

/-- `SmartChatClient._format_tools_description`: the rendered catalog used
inside the system prompt. -/
def format_tools_description (tools : List ToolDescriptor) : String :=
  tools.foldl
    (fun acc t => acc ++ "\n📌 " ++ t.name ++ "\n" ++ "   Опис: " ++ t.description ++ "\n")
    ""

/-- The system prompt built by `query_ollama_with_tools` (the f-string of
the source with the tool catalog spliced in; literal braces written by the
doubled braces of the f-string). -/
def system_prompt_text (tools : List ToolDescriptor) : String :=
  "Ти дружелюбний помічник, який може використовувати наступні інструменти:\n\n"
  ++ format_tools_description tools
  ++ "\n\nІНСТРУКЦІЇ:\n1. Аналізуй запит користувача\n2. Якщо тобі потрібна інформація, яку ти можеш отримати через інструменти, використовуй їх\n3. ⚠️ ВАЖЛИВО: При використанні інструменту search_duckduckgo, ЗАВЖДИ перекладай запит на АНГЛІЙСЬКУ мову перед пошуком. DuckDuckGo краще працює з англійськими запитами!\n   Приклад: якщо користувач запитає \"яка погода в Київі?\", ти маєш шукати \"weather in Kyiv today\"\n4. Щоб викликати інструмент, напиши JSON в цьому форматі:\n   \x7b\n     \"tool\": \"назва_інструменту\",\n     \"args\": \x7b\"параметр1\": \"значення1\", \"параметр2\": \"значення2\"\x7d\n   \x7d\n5. Після отримання результату від інструменту, використай цю інформацію для відповіді\n6. Завжди відповідай українською мовою користувачу\n7. Будь дружелюбним та корисним\n"

/-- One entry of `conversation_history`. -/
structure Turn where
  role : String
  content : String

/-- Python slicing `s[:n]`: the first `n` characters. -/
def pySlice (s : String) (n : Nat) : String :=
  String.mk (s.data.take n)

/-- Prompt built on iterations after the first (source lines 75 to 77):
the current user message, a context header, then one line per turn of the
last-four window `conversation_history[-4:]`, each rendered as
`role: content[:200]...`, accumulated exactly like the Python `+=` loop. -/
def buildContextPrompt (userMessage : String) (hist : List Turn) : String :=
  (hist.drop (hist.length - 4)).foldl
    (fun acc msg => acc ++ msg.role ++ ": " ++ pySlice msg.content 200 ++ "...\n")
    (userMessage ++ "\n\n[Контекст попередніх кроків]\n")

/-- The `full_message` the loop sends on a given iteration: the raw user
message first, the windowed context rendering afterwards. -/
def promptAt (iteration : Nat) (userMessage : String) (hist : List Turn) : String :=
  if iteration = 0 then userMessage else buildContextPrompt userMessage hist

/-- Specification-side rendering of a window: the concatenation of one
role-prefixed, truncated, elision-marked line per turn.  `buildContextPrompt`
is proved to factor through it. -/
def renderLines : List Turn → String
  | [] => ""
  | t :: ts => (t.role ++ ": " ++ pySlice t.content 200 ++ "...\n") ++ renderLines ts

/-- The `results_message` folded back into the conversation after a tool
round: a header, one block per result tagged with the tool name, and the
closing instruction. -/
def results_message (toolResults : List (JsonVal × String)) : String :=
  (toolResults.foldl
    (fun acc tr => acc ++ "\n📌 Інструмент \u0027" ++ pyStr tr.1 ++ "\u0027:\n" ++ tr.2 ++ "\n")
    ("Ось результати виконання інструментів:\n"))
  ++ "\nТепер, используючи цю інформацію, дай остаточну відповідь користувачу."

/-- External collaborators of one orchestration run.  `ollama` is the
gateway: given the sequence number of the call, the system prompt and the
built prompt, it yields the reply text or the message of the raised
exception (`_call_ollama` errors are terminal for the turn).  `callTool`
is the whole `session.call_tool(...)` followed by `result.content[0].text`:
it yields the result text, or the message of whatever exception that block
raised. -/
structure Env where
  ollama : Nat → String → String → Except String String
  callTool : JsonVal → List (String × JsonVal) → Except String String

/-- Observable outcome of `query_ollama_with_tools`: the returned value
(`none` when the Python function falls off the loop and returns `None`),
how many gateway calls were made, and the invocations passed to the
external executor, in order. -/
structure RunResult where
  answer : Option String
  modelCalls : Nat
  toolInvocations : List (JsonVal × List (String × JsonVal))

/-- The orchestration loop of `query_ollama_with_tools`, one constructor
case per remaining `range(max_iterations)` step.  `iteration` is the Python
loop index, `callIdx` the number of gateway calls already made (the oracle
index of the next one).  Each step follows the source order: build the
prompt (appending the user turn on iteration 0), call the gateway (an
error returns the formatted error message), extract tool calls (none means
the reply is the final answer), execute every call against the executor
capturing failures as text, fold the results message, and either make the
one forced final call when `iteration == max_iterations - 1` or continue.
The returned counts and invocation list of the suffix are accumulated. -/
def queryGo (env : Env) (sys : String) (maxIterations : Int) :
    Nat → Nat → Nat → String → List Turn → RunResult
  | 0, _, _, _, _ => { answer := none, modelCalls := 0, toolInvocations := [] }
  | remaining + 1, iteration, callIdx, userMessage, hist =>
    let hist0 := if iteration = 0 then hist ++ [{ role := "user", content := userMessage }] else hist
    let fullMessage := promptAt iteration userMessage hist
    match env.ollama callIdx sys fullMessage with
    | Except.error e =>
      { answer := some ("❌ Помилка при звернення до Ollama: " ++ e),
        modelCalls := 1, toolInvocations := [] }
    | Except.ok response =>
      let toolCalls := extract_tool_calls response
      if toolCalls.isEmpty then
        { answer := some response, modelCalls := 1, toolInvocations := [] }
      else
        let invs := toolCalls.map (fun c => (c.tool, c.args))
        let toolResults := toolCalls.map (fun c =>
          (c.tool,
           match env.callTool c.tool c.args with
           | Except.ok t => t
           | Except.error e => "Помилка при виконанні інструменту: " ++ e))
        let resultsMsg := results_message toolResults
        let hist2 := (hist0 ++ [{ role := "assistant", content := response }])
          ++ [{ role := "user", content := resultsMsg }]
        if (iteration : Int) = maxIterations - 1 then
          match env.ollama (callIdx + 1) sys resultsMsg with
          | Except.ok finalResponse =>
            { answer := some finalResponse, modelCalls := 2, toolInvocations := invs }
          | Except.error e =>
            { answer := some ("❌ Помилка при отриманні остаточної відповіді: " ++ e),
              modelCalls := 2, toolInvocations := invs }
        else
          let rest := queryGo env sys maxIterations remaining (iteration + 1) (callIdx + 1) resultsMsg hist2
          { answer := rest.answer,
            modelCalls := 1 + rest.modelCalls,
            toolInvocations := invs ++ rest.toolInvocations }

/-- `SmartChatClient.query_ollama_with_tools` (default budget 5 in the
source).  A non-positive budget makes `range(max_iterations)` empty. -/
def query_ollama_with_tools (env : Env) (availableTools : List ToolDescriptor)
    (userMessage : String) (maxIterations : Int) : RunResult :=
  queryGo env (system_prompt_text availableTools) maxIterations
    maxIterations.toNat 0 0 userMessage []

/-- Outcome of the HTTP layer inside `_call_ollama`: the connection failed
(`httpx.ConnectError`), some other exception was raised by the request,
the status check or the body decode (carrying its message), or the body
decoded to a JSON value. -/
inductive OllamaHttp where
  | connectError
  | otherExn (msg : String)
  | decoded (body : JsonVal)

/-- Python type name of a decoded JSON value, for the `AttributeError`
message below. -/
def pyTypeName : JsonVal → String
  | JsonVal.null => "NoneType"
  | JsonVal.bool _ => "bool"
  | JsonVal.num _ => "int"
  | JsonVal.fnum _ => "float"
  | JsonVal.str _ => "str"
  | JsonVal.arr _ => "list"
  | JsonVal.obj _ => "dict"

/-- `SmartChatClient._call_ollama` as a function of the HTTP outcome.
A connection error re-raises the fixed unavailability message; any other
exception inside the `try` — including the `AttributeError` raised by
`data.get` when the decoded body is not an object — is wrapped as
`Помилка при запиті до Ollama: ...`.  A decoded object returns
`data.get("response", placeholder)`: the raw field value when the key is
present (even an empty string), the placeholder only when it is absent. -/
def call_ollama (r : OllamaHttp) : Except String JsonVal :=
  match r with
  | OllamaHttp.connectError => Except.error ("Ollama недоступна на http://localhost:11434")
  | OllamaHttp.otherExn e => Except.error ("Помилка при запиті до Ollama: " ++ e)
  | OllamaHttp.decoded (JsonVal.obj fields) =>
    Except.ok
      (match dictGet fields ("response") with
       | some v => v
       | none => JsonVal.str ("Помилка: порожня відповідь від моделі"))
  | OllamaHttp.decoded body =>
    Except.error ("Помилка при запиті до Ollama: \u0027" ++ pyTypeName body
      ++ "\u0027 object has no attribute \u0027get\u0027")

/-- Invocations sent to the executor by the round whose reply is `r j`. -/
def roundInvs (r : Nat → String) (j : Nat) : List (JsonVal × List (String × JsonVal)) :=
  (extract_tool_calls (r j)).map (fun c => (c.tool, c.args))

/-- Invocations of the `d` rounds `i, i+1, ..., i+d-1`, in order. -/
def invsRange (r : Nat → String) : Nat → Nat → List (JsonVal × List (String × JsonVal))
  | _, 0 => []
  | i, d + 1 => roundInvs r i ++ invsRange r (i + 1) d

/-- Fixture: a reply that always requests the `sum` tool. -/
def toolReplyText : String := "\x7b\"tool\": \"sum\", \"args\": \x7b\"a\": 1, \"b\": 2\x7d\x7d"

/-- Fixture: a gateway that always replies with a tool request, over an
executor that always fails. -/
def envAlwaysTool : Env :=
  { ollama := fun _ _ _ => Except.ok toolReplyText,
    callTool := fun _ _ => Except.error ("boom") }

/-- Fixture: a first reply requesting a tool name absent from the
Registry. -/
def unknownToolReply : String := "Викликаю: \x7b\"tool\": \"nosuch\"\x7d"

/-- Fixture: gateway requesting the unknown tool once, then answering;  the
executor rejects the unknown name, as the real MCP session does. -/
def envUnknownTool : Env :=
  { ollama := fun k _ _ =>
      if k = 0 then Except.ok unknownToolReply else Except.ok ("Готово"),
    callTool := fun _ _ => Except.error ("Unknown tool: nosuch") }

/-- Fixture: a zero-argument tool request. -/
def dateToolReply : String := "\x7b\"tool\": \"get_date\"\x7d"

/-- Fixture: gateway requesting `get_date` once, then answering, over a
succeeding executor. -/
def envDateTool : Env :=
  { ollama := fun k _ _ =>
      if k = 0 then Except.ok dateToolReply else Except.ok ("final answer"),
    callTool := fun _ _ => Except.ok ("2024-01-01") }

/-- Fixture: a gateway whose every call raises. -/
def envGatewayDown : Env :=
  { ollama := fun _ _ _ => Except.error ("boom"),
    callTool := fun _ _ => Except.ok ("") }

/-- Fixture: inert collaborators, for runs that must not call them. -/
def envIdle : Env :=
  { ollama := fun _ _ _ => Except.error (""),
    callTool := fun _ _ => Except.error ("") }

/-- Scenario E input: an unquoted, incomplete candidate. -/
def scenarioE : String := "\x7btool: \u0027sum\u0027, args: \x7ba: 2, b:\x7d\x7d"

/-- A well-formed tool-call JSON object whose argument value contains a
closing brace inside a string literal. -/
def braceInStringCall : String := "\x7b\"tool\": \"sum\", \"args\": \x7b\"a\": \"\x7d\"\x7d\x7d"

/-! ## Lemmas about the regex scanner -/

/-- A successful scan consumes exactly its match. -/
theorem scanClose_length (cs : List Char) :
    ∀ d m r, scanClose cs d = some (m, r) → m.length + r.length = cs.length := by
  induction cs with
  | nil => intro d m r h; simp [scanClose] at h
  | cons c cs ih =>
    intro d m r h
    simp only [scanClose] at h
    split at h
    · split at h
      · cases h; simp; omega
      · split at h
        · rename_i m2 r2 heq
          cases h
          have := ih _ _ _ heq
          simp
          omega
        · cases h
    · split at h
      · split at h
        · cases h
        · split at h
          · rename_i m2 r2 heq
            cases h
            have := ih _ _ _ heq
            simp
            omega
          · cases h
      · split at h
        · rename_i m2 r2 heq
          cases h
          have := ih _ _ _ heq
          simp
          omega
        · cases h

/-- A scan that ends exactly at the end of its input scans the same match
out of any extension, leaving the extension as the rest. -/
theorem scanClose_extend (cs : List Char) :
    ∀ d m, scanClose cs d = some (m, []) →
      ∀ s, scanClose (cs ++ s) d = some (m, s) := by
  induction cs with
  | nil => intro d m h; simp [scanClose] at h
  | cons c cs ih =>
    intro d m h s
    by_cases hc : c = '}'
    · by_cases hd : d = 1
      · simp only [scanClose, if_pos hc, if_pos hd] at h
        obtain ⟨h1, h2⟩ := Prod.mk.injEq .. ▸ Option.some.inj h
        subst h2
        simp [scanClose, hc, hd, ← h1]
      · simp only [scanClose, if_pos hc, if_neg hd] at h
        cases heq : scanClose cs (d - 1) with
        | none => rw [heq] at h; cases h
        | some p =>
          obtain ⟨m2, r2⟩ := p
          rw [heq] at h
          obtain ⟨h1, h2⟩ := Prod.mk.injEq .. ▸ Option.some.inj h
          subst h2
          have hih : scanClose (cs ++ s) (d - 1) = some (m2, s) := ih _ _ heq s
          have hih2 : scanClose (List.append cs s) (d - 1) = some (m2, s) := hih
          simp [scanClose, hc, hd, hih, hih2, ← h1]
    · by_cases hb : c = '{'
      · by_cases hd : 2 ≤ d
        · simp [scanClose, hc, hb, hd] at h
        · simp only [scanClose, if_neg hc, if_pos hb, if_neg hd] at h
          cases heq : scanClose cs (d + 1) with
          | none => rw [heq] at h; cases h
          | some p =>
            obtain ⟨m2, r2⟩ := p
            rw [heq] at h
            obtain ⟨h1, h2⟩ := Prod.mk.injEq .. ▸ Option.some.inj h
            subst h2
            have hih : scanClose (cs ++ s) (d + 1) = some (m2, s) := ih _ _ heq s
            have hih2 : scanClose (List.append cs s) (d + 1) = some (m2, s) := hih
            simp [scanClose, hc, hb, hd, hih, hih2, ← h1]
      · simp only [scanClose, if_neg hc, if_neg hb] at h
        cases heq : scanClose cs d with
        | none => rw [heq] at h; cases h
        | some p =>
          obtain ⟨m2, r2⟩ := p
          rw [heq] at h
          obtain ⟨h1, h2⟩ := Prod.mk.injEq .. ▸ Option.some.inj h
          subst h2
          have hih : scanClose (cs ++ s) d = some (m2, s) := ih _ _ heq s
          have hih2 : scanClose (List.append cs s) d = some (m2, s) := hih
          simp [scanClose, hc, hb, hih, hih2, ← h1]

/-- The fuel of `finditerAux` is irrelevant as long as it covers the input
length. -/
theorem finditerAux_stable (f1 : Nat) :
    ∀ (cs : List Char) (f2 : Nat), cs.length ≤ f1 → cs.length ≤ f2 →
      finditerAux f1 cs = finditerAux f2 cs := by
  induction f1 with
  | zero =>
    intro cs f2 h1 _
    have : cs = [] := List.eq_nil_of_length_eq_zero (Nat.le_zero.mp h1)
    subst this
    cases f2 <;> simp [finditerAux]
  | succ f1 ih =>
    intro cs f2 h1 h2
    cases cs with
    | nil => cases f2 <;> simp [finditerAux]
    | cons c cs =>
      cases f2 with
      | zero => simp at h2
      | succ f2 =>
        simp only [List.length_cons, Nat.succ_le_succ_iff] at h1 h2
        by_cases hc : c = '{'
        · cases heq : scanClose cs 1 with
          | none => simp [finditerAux, hc, heq, ih cs f2 h1 h2]
          | some p =>
            obtain ⟨m, rest⟩ := p
            have hlen := scanClose_length cs 1 m rest heq
            have hr1 : rest.length ≤ f1 := by omega
            have hr2 : rest.length ≤ f2 := by omega
            simp [finditerAux, hc, heq, ih rest f2 hr1 hr2]
        · simp [finditerAux, hc, ih cs f2 h1 h2]

/-- A successful scan is prefix-stable: it scans the same match out of any
extension, leaving the extension appended to the rest. -/
theorem scanClose_prefix (cs : List Char) :
    ∀ d m r, scanClose cs d = some (m, r) →
      ∀ t, scanClose (cs ++ t) d = some (m, r ++ t) := by
  induction cs with
  | nil => intro d m r h; simp [scanClose] at h
  | cons c cs ih =>
    intro d m r h t
    by_cases hc : c = '}'
    · by_cases hd : d = 1
      · simp only [scanClose, if_pos hc, if_pos hd] at h
        obtain ⟨h1, h2⟩ := Prod.mk.injEq .. ▸ Option.some.inj h
        subst h2
        simp [scanClose, hc, hd, ← h1]
      · simp only [scanClose, if_pos hc, if_neg hd] at h
        cases heq : scanClose cs (d - 1) with
        | none => rw [heq] at h; cases h
        | some p =>
          obtain ⟨m2, r2⟩ := p
          rw [heq] at h
          obtain ⟨h1, h2⟩ := Prod.mk.injEq .. ▸ Option.some.inj h
          subst h2
          have hih : scanClose (cs ++ t) (d - 1) = some (m2, r2 ++ t) := ih _ _ _ heq t
          have hih2 : scanClose (List.append cs t) (d - 1) = some (m2, r2 ++ t) := hih
          simp [scanClose, hc, hd, hih, hih2, ← h1]
    · by_cases hb : c = '{'
      · by_cases hd : 2 ≤ d
        · simp [scanClose, hc, hb, hd] at h
        · simp only [scanClose, if_neg hc, if_pos hb, if_neg hd] at h
          cases heq : scanClose cs (d + 1) with
          | none => rw [heq] at h; cases h
          | some p =>
            obtain ⟨m2, r2⟩ := p
            rw [heq] at h
            obtain ⟨h1, h2⟩ := Prod.mk.injEq .. ▸ Option.some.inj h
            subst h2
            have hih : scanClose (cs ++ t) (d + 1) = some (m2, r2 ++ t) := ih _ _ _ heq t
            have hih2 : scanClose (List.append cs t) (d + 1) = some (m2, r2 ++ t) := hih
            simp [scanClose, hc, hb, hd, hih, hih2, ← h1]
      · simp only [scanClose, if_neg hc, if_neg hb] at h
        cases heq : scanClose cs d with
        | none => rw [heq] at h; cases h
        | some p =>
          obtain ⟨m2, r2⟩ := p
          rw [heq] at h
          obtain ⟨h1, h2⟩ := Prod.mk.injEq .. ▸ Option.some.inj h
          subst h2
          have hih : scanClose (cs ++ t) d = some (m2, r2 ++ t) := ih _ _ _ heq t
          have hih2 : scanClose (List.append cs t) d = some (m2, r2 ++ t) := hih
          simp [scanClose, hc, hb, hih, hih2, ← h1]

/-- A scan that hard-fails (rather than running off the end of the input)
fails identically on any extension: the failing character lies within the
input, so the continuation is never reached. -/
theorem scanClose_hardFail (cs : List Char) :
    ∀ d, scanClose cs d = none → scanHangs cs d = false →
      ∀ t, scanClose (cs ++ t) d = none := by
  induction cs with
  | nil => intro d _ hh t; simp [scanHangs] at hh
  | cons c cs ih =>
    intro d hn hh t
    by_cases hc : c = '}'
    · by_cases hd : d = 1
      · simp [scanClose, hc, hd] at hn
      · simp only [scanClose, if_pos hc, if_neg hd] at hn
        simp only [scanHangs, if_pos hc, if_neg hd] at hh
        cases heq : scanClose cs (d - 1) with
        | some p => obtain ⟨m2, r2⟩ := p; simp [heq] at hn
        | none =>
          have hrec := ih (d - 1) heq hh t
          have hrec2 : scanClose (List.append cs t) (d - 1) = none := hrec
          simp [scanClose, hc, hd, hrec, hrec2]
    · by_cases hb : c = '{'
      · by_cases hd : 2 ≤ d
        · simp [scanClose, hc, hb, hd]
        · simp only [scanClose, if_neg hc, if_pos hb, if_neg hd] at hn
          simp only [scanHangs, if_neg hc, if_pos hb, if_neg hd] at hh
          cases heq : scanClose cs (d + 1) with
          | some p => obtain ⟨m2, r2⟩ := p; simp [heq] at hn
          | none =>
            have hrec := ih (d + 1) heq hh t
            have hrec2 : scanClose (List.append cs t) (d + 1) = none := hrec
            simp [scanClose, hc, hb, hd, hrec, hrec2]
      · simp only [scanClose, if_neg hc, if_neg hb] at hn
        simp only [scanHangs, if_neg hc, if_neg hb] at hh
        cases heq : scanClose cs d with
        | some p => obtain ⟨m2, r2⟩ := p; simp [heq] at hn
        | none =>
          have hrec := ih d heq hh t
          have hrec2 : scanClose (List.append cs t) d = none := hrec
          simp [scanClose, hc, hb, hrec, hrec2]

/-- The fuel of `cleanScanAux` is irrelevant as long as it covers the
input length. -/
theorem cleanScanAux_stable (f1 : Nat) :
    ∀ (cs : List Char) (f2 : Nat), cs.length ≤ f1 → cs.length ≤ f2 →
      cleanScanAux f1 cs = cleanScanAux f2 cs := by
  induction f1 with
  | zero =>
    intro cs f2 h1 _
    have : cs = [] := List.eq_nil_of_length_eq_zero (Nat.le_zero.mp h1)
    subst this
    cases f2 <;> simp [cleanScanAux]
  | succ f1 ih =>
    intro cs f2 h1 h2
    cases cs with
    | nil => cases f2 <;> simp [cleanScanAux]
    | cons c cs =>
      cases f2 with
      | zero => simp at h2
      | succ f2 =>
        simp only [List.length_cons, Nat.succ_le_succ_iff] at h1 h2
        by_cases hc : c = '{'
        · cases heq : scanClose cs 1 with
          | none => simp [cleanScanAux, hc, heq, ih cs f2 h1 h2]
          | some p =>
            obtain ⟨m, rest⟩ := p
            have hlen := scanClose_length cs 1 m rest heq
            have hr1 : rest.length ≤ f1 := by omega
            have hr2 : rest.length ≤ f2 := by omega
            simp [cleanScanAux, hc, heq, ih rest f2 hr1 hr2]
        · simp [cleanScanAux, hc, ih cs f2 h1 h2]

/-- Over a prefix with no unmatched open brace, the finditer pass is
compositional: the matches of `A ++ t` are the matches of `A` followed by
the matches of `t`.  (Every scan started in `A` either completes inside
`A` — and is prefix-stable — or hard-fails inside `A`, so the scanner
never reads into `t` before finishing with `A`.) -/
theorem reFinditer_cleanScan_aux (f : Nat) :
    ∀ A : List Char, A.length ≤ f → cleanScan A = true →
      ∀ t, reFinditer (A ++ t) = reFinditer A ++ reFinditer t := by
  induction f with
  | zero =>
    intro A h1 _ t
    have : A = [] := List.eq_nil_of_length_eq_zero (Nat.le_zero.mp h1)
    subst this
    simp [reFinditer, finditerAux]
  | succ f ih =>
    intro A h1 hclean t
    cases A with
    | nil => simp [reFinditer, finditerAux]
    | cons c A =>
      simp only [List.length_cons, Nat.succ_le_succ_iff] at h1
      by_cases hc : c = '{'
      · cases heq : scanClose A 1 with
        | some p =>
          obtain ⟨m, rest⟩ := p
          have hlen := scanClose_length A 1 m rest heq
          have hcleanRest : cleanScan rest = true := by
            have hstep : cleanScanAux A.length rest = true := by
              simpa [cleanScan, cleanScanAux, hc, heq] using hclean
            rw [cleanScan, ← cleanScanAux_stable A.length rest rest.length (by omega) (le_refl _)]
            exact hstep
          have hpre : scanClose (A ++ t) 1 = some (m, rest ++ t) :=
            scanClose_prefix A 1 m rest heq t
          have hpre2 : scanClose (List.append A t) 1 = some (m, rest ++ t) := hpre
          have hL : reFinditer ((c :: A) ++ t) = ('{' :: m) :: reFinditer (rest ++ t) := by
            simp only [List.cons_append, reFinditer, List.length_cons]
            simp [finditerAux, hc, hpre, hpre2]
            refine finditerAux_stable _ _ _ ?_ ?_
            · simp only [List.length_append]
              omega
            · simp only [List.length_append]
              omega
          have hR : reFinditer (c :: A) = ('{' :: m) :: reFinditer rest := by
            simp only [reFinditer, List.length_cons]
            simp [finditerAux, hc, heq]
            refine finditerAux_stable _ _ _ ?_ ?_ <;> omega
          rw [hL, hR, ih rest (by omega) hcleanRest t]
          simp
        | none =>
          by_cases hhang : scanHangs A 1 = true
          · exfalso
            simp [cleanScan, cleanScanAux, hc, heq, hhang] at hclean
          · have hhf : scanHangs A 1 = false := by
              cases hv : scanHangs A 1 with
              | false => rfl
              | true => exact absurd hv hhang
            have hcleanA : cleanScan A = true := by
              simpa [cleanScan, cleanScanAux, hc, heq, hhf] using hclean
            have hnone : scanClose (A ++ t) 1 = none := scanClose_hardFail A 1 heq hhf t
            have hnone2 : scanClose (List.append A t) 1 = none := hnone
            have hL : reFinditer ((c :: A) ++ t) = reFinditer (A ++ t) := by
              simp only [List.cons_append, reFinditer, List.length_cons]
              simp [finditerAux, hc, hnone, hnone2]
            have hR : reFinditer (c :: A) = reFinditer A := by
              simp only [reFinditer, List.length_cons]
              simp [finditerAux, hc, heq]
            rw [hL, hR, ih A h1 hcleanA t]
      · have hcleanA : cleanScan A = true := by
          simpa [cleanScan, cleanScanAux, hc] using hclean
        have hL : reFinditer ((c :: A) ++ t) = reFinditer (A ++ t) := by
          simp only [List.cons_append, reFinditer, List.length_cons]
          simp [finditerAux, hc]
        have hR : reFinditer (c :: A) = reFinditer A := by
          simp only [reFinditer, List.length_cons]
          simp [finditerAux, hc]
        rw [hL, hR, ih A h1 hcleanA t]

/-- Compositionality of the finditer pass over a prefix with no unmatched
open brace. -/
theorem reFinditer_cleanScan_append (A : List Char) (hA : cleanScan A = true)
    (t : List Char) : reFinditer (A ++ t) = reFinditer A ++ reFinditer t :=
  reFinditer_cleanScan_aux A.length A (le_refl _) hA t

/-- At an exactly balanced candidate, `reFinditer` emits the candidate and
resumes after it. -/
theorem reFinditer_match (body : List Char) (cs : List Char)
    (h : scanClose body 1 = some (body, [])) :
    reFinditer (('{' :: body) ++ cs) = ('{' :: body) :: reFinditer cs := by
  have hext : scanClose (body ++ cs) 1 = some (body, cs) := scanClose_extend body 1 body h cs
  have hext2 : scanClose (List.append body cs) 1 = some (body, cs) := hext
  have hstab : finditerAux (body.length + cs.length) cs = finditerAux cs.length cs := by
    refine finditerAux_stable _ cs cs.length ?_ ?_ <;> omega
  simp only [reFinditer, List.cons_append, List.length_cons]
  simp [finditerAux, hext, hext2]
  exact hstab

/-! ## Claims about the Tool-Call Extractor -/

/-- C3, counterexample: `braceInStringCall` is, as one whole occurrence, a
well-formed tool-call JSON object — it parses to an object whose `"tool"`
field names the Registry tool `sum` with a valid string-to-string argument
mapping — yet `_extract_tool_calls` yields no ToolCall for it: the regex
counts the closing brace inside the string literal, so the candidate span
is cut short and fails to parse. -/
theorem c3_brace_in_string_missed :
    jsonLoads braceInStringCall
      = some (JsonVal.obj
          [("tool", JsonVal.str ("sum")),
           ("args", JsonVal.obj [("a", JsonVal.str ("\x7d"))])])
    ∧ ((server_tools.map ToolDescriptor.name).contains ("sum")) = true
    ∧ extract_tool_calls braceInStringCall = [] := by
  refine ⟨rfl, rfl, rfl⟩

/-- C3, amended: a well-formed tool-call JSON object is extracted exactly
once — after whatever the preceding text yields and before anything
extracted from the following text — whenever its span is exactly what the
brace scanner matches (no brace of the object hides inside one of its
string literals), it still parses after the global single-to-double quote
replacement, and no unmatched open brace precedes it (`cleanScan`: every
open brace the scanner visits in the preceding text either completes its
match or fails within that text — matched non-tool objects in the prefix
are fine and are simply filtered).  Scenario A is the witness below, with
and without a matched non-tool object in front. -/
theorem c3_clean_candidate_extracted (A body s : List Char) (c : ToolCall)
    (hA : cleanScan A = true)
    (hbody : scanClose body 1 = some (body, []))
    (hc : candidateCall ('{' :: body) = some c) :
    extractCalls (A ++ ('{' :: body) ++ s) = extractCalls A ++ c :: extractCalls s := by
  unfold extractCalls
  rw [List.append_assoc, reFinditer_cleanScan_append A hA, reFinditer_match body s hbody]
  simp [List.filterMap_append, List.filterMap_cons, hc]

/-- C3, witness: Scenario A — the input
`Please check: ... thanks` yields the single ToolCall
`sum(a := 2, b := 3)` — and the same holds when a matched non-tool object
precedes the call. -/
theorem c3_witness :
    extract_tool_calls ("Please check: \x7b\"tool\": \"sum\", \"args\": \x7b\"a\": 2, \"b\": 3\x7d\x7d thanks")
      = [{ tool := JsonVal.str ("sum"),
           args := [("a", JsonVal.num 2), ("b", JsonVal.num 3)] }]
    ∧ extract_tool_calls ("\x7b\"ok\": 1\x7d check: \x7b\"tool\": \"sum\", \"args\": \x7b\"a\": 2, \"b\": 3\x7d\x7d thanks")
      = [{ tool := JsonVal.str ("sum"),
           args := [("a", JsonVal.num 2), ("b", JsonVal.num 3)] }] := by
  constructor
  · have h := c3_clean_candidate_extracted
      (("Please check: ").data)
      (("\"tool\": \"sum\", \"args\": \x7b\"a\": 2, \"b\": 3\x7d\x7d").data)
      ((" thanks").data)
      { tool := JsonVal.str ("sum"),
        args := [("a", JsonVal.num 2), ("b", JsonVal.num 3)] }
      rfl rfl rfl
    exact h
  · have h := c3_clean_candidate_extracted
      (("\x7b\"ok\": 1\x7d check: ").data)
      (("\"tool\": \"sum\", \"args\": \x7b\"a\": 2, \"b\": 3\x7d\x7d").data)
      ((" thanks").data)
      { tool := JsonVal.str ("sum"),
        args := [("a", JsonVal.num 2), ("b", JsonVal.num 3)] }
      rfl rfl rfl
    exact h

/-- C6: every candidate that parses (after quote fixing) to an object with
a `"tool"` field yields a ToolCall — it is never rejected for absent or
malformed `"args"` — whose arguments are the `"args"` mapping when that
field is present and is a mapping, and the empty mapping when the field is
absent or not a mapping. -/
theorem c6_args_leniency (js : List Char) (fields : List (String × JsonVal))
    (tv : JsonVal)
    (hp : jsonLoads (String.mk (quoteFix js)) = some (JsonVal.obj fields))
    (ht : dictGet fields ("tool") = some tv) :
    candidateCall js = some { tool := tv, args := argsOf fields }
    ∧ (dictGet fields ("args") = none → argsOf fields = [])
    ∧ (∀ a, dictGet fields ("args") = some (JsonVal.obj a) → argsOf fields = a)
    ∧ (∀ v, dictGet fields ("args") = some v → (∀ a, v ≠ JsonVal.obj a) →
        argsOf fields = []) := by
  refine ⟨?_, ?_, ?_, ?_⟩
  · simp [candidateCall, hp, ht]
  · intro h; simp [argsOf, h]
  · intro a h; simp [argsOf, h]
  · intro v h hv
    simp only [argsOf, h]
    cases v with
    | obj a => exact absurd rfl (hv a)
    | null => rfl
    | bool b => rfl
    | num n => rfl
    | fnum l => rfl
    | str s => rfl
    | arr xs => rfl

/-- C6, witness: the zero-argument call of Scenario-style input
`(tool get_date, no args field)` is accepted with empty arguments. -/
theorem c6_witness :
    candidateCall (("\x7b\"tool\": \"get_date\"\x7d").data)
      = some { tool := JsonVal.str ("get_date"), args := [] } :=
  (c6_args_leniency (("\x7b\"tool\": \"get_date\"\x7d").data)
    [("tool", JsonVal.str ("get_date"))] (JsonVal.str ("get_date")) rfl rfl).1

/-- C7: extraction is a total function whose every produced ToolCall comes
from a candidate that parsed successfully to an object with a `"tool"`
field — a candidate that fails to parse (the model of the caught
`json.JSONDecodeError`/`ValueError`/`TypeError`), parses to a non-object,
or lacks the field, contributes nothing — and on the malformed Scenario E
input the result is empty, as if no tool call were present. -/
theorem c7_malformed_excluded :
    (∀ (s : String) (c : ToolCall), c ∈ extract_tool_calls s →
        ∃ js, js ∈ reFinditer s.data ∧ candidateCall js = some c)
    ∧ extract_tool_calls scenarioE = [] := by
  constructor
  · intro s c hc
    have := List.mem_filterMap.mp hc
    simpa using this
  · rfl

/-- C7, witness: the origin of the single call extracted from a get_date
request. -/
theorem c7_witness :
    ∃ js, js ∈ reFinditer (("\x7b\"tool\": \"get_date\"\x7d").data)
      ∧ candidateCall js = some { tool := JsonVal.str ("get_date"), args := [] } := by
  refine c7_malformed_excluded.1 ("\x7b\"tool\": \"get_date\"\x7d")
    { tool := JsonVal.str ("get_date"), args := [] } ?_
  rw [show extract_tool_calls ("\x7b\"tool\": \"get_date\"\x7d")
      = [{ tool := JsonVal.str ("get_date"), args := [] }] from rfl]
  exact List.mem_singleton_self _

/-! ## Claims about the Orchestration Loop -/

/-- C10: a non-positive iteration budget makes `range(max_iterations)`
empty, so the loop body never runs — no gateway call, no tool execution —
and the function returns `None` (no answer string). -/
theorem c10_nonpositive_budget (env : Env) (tools : List ToolDescriptor)
    (msg : String) (B : Int) (hB : B ≤ 0) :
    query_ollama_with_tools env tools msg B =
      { answer := none, modelCalls := 0, toolInvocations := [] } := by
  unfold query_ollama_with_tools
  rw [Int.toNat_of_nonpos hB]
  rfl

/-- C10, witness: budget 0 over inert collaborators. -/
theorem c10_witness :
    query_ollama_with_tools envIdle server_tools ("hi") 0 =
      { answer := none, modelCalls := 0, toolInvocations := [] } :=
  c10_nonpositive_budget envIdle server_tools ("hi") 0 (by decide)

/-- C1, counterexample: the run with `envUnknownTool` extracts a call to
`nosuch`, a name absent from the Registry, and the loop passes that very
call to the external executor — the invocation trace is non-empty —
refuting the claim that the name is checked against the Registry before
invocation and that the executor is never invoked for it.  (The loop does
continue: the final answer comes from the second gateway call.) -/
theorem c1_executor_invoked_for_unknown :
    ((server_tools.map ToolDescriptor.name).contains ("nosuch")) = false
    ∧ (query_ollama_with_tools envUnknownTool server_tools ("hi") 2).toolInvocations
        = [(JsonVal.str ("nosuch"), [])]
    ∧ (query_ollama_with_tools envUnknownTool server_tools ("hi") 2).answer
        = some ("Готово") := by
  refine ⟨rfl, rfl, rfl⟩

/-- C1, amended: the loop never aborts on a ToolCall naming a tool absent
from the Registry, but not because of any Registry check — there is none.
Every extracted call, whatever its name, is passed to the external
executor inside a `try`; any executor failure (as a real MCP session
raises for an unknown tool) is captured as a failure-text ToolResult, and
the loop continues to the next iteration regardless of the executor
outcomes. -/
theorem c1_unknown_tool_no_abort (env : Env) (tools : List ToolDescriptor)
    (msg r0 r1 : String) (B : Int)
    (hB : 2 ≤ B)
    (h0 : ∀ s p, env.ollama 0 s p = Except.ok r0)
    (hne : (extract_tool_calls r0).isEmpty = false)
    (h1 : ∀ s p, env.ollama 1 s p = Except.ok r1)
    (hr1 : extract_tool_calls r1 = []) :
    query_ollama_with_tools env tools msg B =
      { answer := some r1, modelCalls := 2,
        toolInvocations := (extract_tool_calls r0).map (fun c => (c.tool, c.args)) } := by
  unfold query_ollama_with_tools
  obtain ⟨m, hm⟩ : ∃ m, B.toNat = m + 2 := ⟨B.toNat - 2, by omega⟩
  rw [hm]
  have hl0 : ¬(((0 : Nat) : Int) = B - 1) := by omega
  simp [queryGo, h0, h1, hne, hr1, hl0]

/-- C1, witness: the amended behaviour on the `envUnknownTool` fixture. -/
theorem c1_witness :
    query_ollama_with_tools envUnknownTool server_tools ("hi") 2 =
      { answer := some ("Готово"), modelCalls := 2,
        toolInvocations := [(JsonVal.str ("nosuch"), [])] } := by
  have h := c1_unknown_tool_no_abort envUnknownTool server_tools ("hi")
    unknownToolReply ("Готово") 2 (by decide)
    (fun s p => rfl) rfl (fun s p => rfl) rfl
  exact h

/-- C2, counterexample: with budget 1 and a first reply requesting
`get_date`, the run makes two gateway calls, executes the tool, and
returns the second reply — refuting "exactly one model call", "no tool is
executed" and "the reply text is returned as-is". -/
theorem c2_budget_one_two_calls :
    query_ollama_with_tools envDateTool server_tools ("hi") 1 =
      { answer := some ("final answer"), modelCalls := 2,
        toolInvocations := [(JsonVal.str ("get_date"), [])] } := by
  rfl

/-- C2, amended: with budget 1, the single loop iteration makes one model
call; if its reply contains tool calls they are executed (each extracted
call reaches the executor), the `i == max_iterations - 1` branch fires at
once, one additional forced model call is made, and the text of that
second call is returned as-is. -/
theorem c2_budget_one_forced_call (env : Env) (tools : List ToolDescriptor)
    (msg r0 r1 : String)
    (h0 : ∀ s p, env.ollama 0 s p = Except.ok r0)
    (hne : (extract_tool_calls r0).isEmpty = false)
    (h1 : ∀ s p, env.ollama 1 s p = Except.ok r1) :
    query_ollama_with_tools env tools msg 1 =
      { answer := some r1, modelCalls := 2,
        toolInvocations := (extract_tool_calls r0).map (fun c => (c.tool, c.args)) } := by
  unfold query_ollama_with_tools
  have hl0 : (((0 : Nat) : Int) = (1 : Int) - 1) := by decide
  simp [queryGo, h0, h1, hne, hl0]

/-- C2, witness: the amended behaviour over a gateway that always requests
the `sum` tool. -/
theorem c2_witness :
    query_ollama_with_tools envAlwaysTool server_tools ("hi") 1 =
      { answer := some toolReplyText, modelCalls := 2,
        toolInvocations :=
          [(JsonVal.str ("sum"), [("a", JsonVal.num 1), ("b", JsonVal.num 2)])] } := by
  have h := c2_budget_one_forced_call envAlwaysTool server_tools ("hi")
    toolReplyText toolReplyText (fun s p => rfl) rfl (fun s p => rfl)
  exact h

/-- Helper for C4: if the first `k` rounds succeed with tool-requesting
replies and the `k`-th gateway call raises, the loop run from round `i`
(with `i + d = k` rounds to go before the failure) returns the formatted
gateway error, makes exactly the remaining `d + 1` calls, and sends the
executor exactly the invocations of the successful rounds. -/
theorem queryGo_gateway_error (env : Env) (sys : String) (B : Int) (k : Nat)
    (r : Nat → String) (e : String)
    (hk : k < B.toNat)
    (hok : ∀ j, j < k →
      (∀ s p, env.ollama j s p = Except.ok (r j))
      ∧ (extract_tool_calls (r j)).isEmpty = false)
    (herr : ∀ s p, env.ollama k s p = Except.error e) :
    ∀ d i, i + d = k → ∀ u h,
      queryGo env sys B (B.toNat - i) i i u h =
        { answer := some ("❌ Помилка при звернення до Ollama: " ++ e),
          modelCalls := d + 1,
          toolInvocations := invsRange r i d } := by
  intro d
  induction d with
  | zero =>
    intro i hi u h
    have hik : i = k := by omega
    subst hik
    obtain ⟨m, hm⟩ : ∃ m, B.toNat - i = m + 1 := ⟨B.toNat - i - 1, by omega⟩
    rw [hm]
    simp [queryGo, herr, invsRange]
  | succ d ih =>
    intro i hi u h
    obtain ⟨m, hm⟩ : ∃ m, B.toNat - i = m + 1 := ⟨B.toNat - i - 1, by omega⟩
    rw [hm]
    have hoki := hok i (by omega)
    have hBtn : ((B.toNat : Int)) = B := by
      have : (0 : Int) ≤ B := by
        by_contra hn
        push_neg at hn
        rw [Int.toNat_of_nonpos (le_of_lt hn)] at hk
        omega
      exact Int.toNat_of_nonneg this
    have hne : ¬(((i : Nat) : Int) = B - 1) := by omega
    have hm2 : m = B.toNat - (i + 1) := by omega
    simp only [queryGo, hoki.1, hoki.2, Bool.false_eq_true, if_false, hne, if_neg,
      not_false_eq_true]
    rw [hm2]
    rw [ih (i + 1) (by omega)]
    simp [invsRange, roundInvs]
    omega

/-- C4: if the gateway call of any iteration raises (after `k` earlier
successful tool-requesting rounds within the budget), the loop terminates
at once with the formatted error message as the final reported outcome: no
retry happens — exactly `k + 1` gateway calls in total — and no tool of
that round is executed — the executor receives only the invocations of the
earlier rounds. -/
theorem c4_gateway_error_terminal (env : Env) (tools : List ToolDescriptor)
    (msg : String) (B : Int) (k : Nat) (r : Nat → String) (e : String)
    (hk : k < B.toNat)
    (hok : ∀ j, j < k →
      (∀ s p, env.ollama j s p = Except.ok (r j))
      ∧ (extract_tool_calls (r j)).isEmpty = false)
    (herr : ∀ s p, env.ollama k s p = Except.error e) :
    query_ollama_with_tools env tools msg B =
      { answer := some ("❌ Помилка при звернення до Ollama: " ++ e),
        modelCalls := k + 1,
        toolInvocations := invsRange r 0 k } := by
  have h := queryGo_gateway_error env (system_prompt_text tools) B k r e hk hok herr
    k 0 (by omega) msg []
  unfold query_ollama_with_tools
  simpa using h

/-- C4, witness: a timeout on the very first call of a budget-1 run. -/
theorem c4_witness :
    query_ollama_with_tools envGatewayDown server_tools ("hi") 1 =
      { answer := some ("❌ Помилка при звернення до Ollama: boom"),
        modelCalls := 1, toolInvocations := [] } := by
  have h := c4_gateway_error_terminal envGatewayDown server_tools ("hi") 1 0
    (fun _ => "") ("boom") (by decide)
    (fun j hj => absurd hj (by omega)) (fun s p => rfl)
  exact h

/-- Helper for C8: whatever the collaborators do, a run with `remaining`
loop rounds left makes at most `remaining + 1` gateway calls (the `+ 1`
being the forced final call of the last round). -/
theorem queryGo_modelCalls_le (env : Env) (sys : String) (B : Int) :
    ∀ remaining iteration callIdx u h,
      (queryGo env sys B remaining iteration callIdx u h).modelCalls ≤ remaining + 1 := by
  intro remaining
  induction remaining with
  | zero => intro iteration callIdx u h; simp [queryGo]
  | succ n ih =>
    intro iteration callIdx u h
    cases henv : env.ollama callIdx sys (promptAt iteration u h) with
    | error e => simp [queryGo, henv]
    | ok response =>
      by_cases hemp : (extract_tool_calls response).isEmpty
      · simp [queryGo, henv, hemp]
      · by_cases hlast : ((iteration : Nat) : Int) = B - 1
        · cases hfin : env.ollama (callIdx + 1) sys (results_message
            ((extract_tool_calls response).map (fun c =>
              (c.tool,
               match env.callTool c.tool c.args with
               | Except.ok t => t
               | Except.error e => "Помилка при виконанні інструменту: " ++ e)))) with
          | ok f => simp [queryGo, henv, hemp, hlast, hfin]
          | error e2 => simp [queryGo, henv, hemp, hlast, hfin]
        · have hstep := ih (iteration + 1) (callIdx + 1)
          simp only [queryGo, henv, hemp, Bool.false_eq_true, if_false, hlast, if_neg,
            not_false_eq_true]
          exact le_trans (Nat.add_le_add_left (hstep _ _) 1) (by omega)

/-- Helper for C8: with at least one round left and the loop-counter
invariant `iteration + remaining = B`, the run always returns an answer
string (some terminal transition fires; the function cannot fall off the
loop). -/
theorem queryGo_answer_isSome (env : Env) (sys : String) (B : Int) :
    ∀ (remaining iteration callIdx : Nat) (u : String) (h : List Turn),
      1 ≤ remaining → (iteration : Int) + (remaining : Int) = B →
      (queryGo env sys B remaining iteration callIdx u h).answer.isSome = true := by
  intro remaining
  induction remaining with
  | zero => intro iteration callIdx u h h1 _; omega
  | succ n ih =>
    intro iteration callIdx u h _ hinv
    cases henv : env.ollama callIdx sys (promptAt iteration u h) with
    | error e => simp [queryGo, henv]
    | ok response =>
      by_cases hemp : (extract_tool_calls response).isEmpty
      · simp [queryGo, henv, hemp]
      · by_cases hlast : ((iteration : Nat) : Int) = B - 1
        · cases hfin : env.ollama (callIdx + 1) sys (results_message
            ((extract_tool_calls response).map (fun c =>
              (c.tool,
               match env.callTool c.tool c.args with
               | Except.ok t => t
               | Except.error e => "Помилка при виконанні інструменту: " ++ e)))) with
          | ok f => simp [queryGo, henv, hemp, hlast, hfin]
          | error e2 => simp [queryGo, henv, hemp, hlast, hfin]
        · have hn : 1 ≤ n := by
            rcases Nat.eq_zero_or_pos n with h0 | h0
            · subst h0; exfalso; apply hlast; push_cast at hinv ⊢; omega
            · exact h0
          have hstep := ih (iteration + 1) (callIdx + 1)
          simp only [queryGo, henv, hemp, Bool.false_eq_true, if_false, hlast, if_neg,
            not_false_eq_true]
          exact hstep _ _ hn (by push_cast at hinv ⊢; omega)

/-- Helper for C8: when the gateway always succeeds with replies that all
request tools, a run of `d ≥ 1` rounds starting at round `i` (with
`callIdx = i` and the invariant `i + d = B`) makes exactly `d + 1` gateway
calls, forwards every round of invocations to the executor, and returns
the text of the forced final call — the reply of oracle index `i + d` —
unconditionally. -/
theorem queryGo_all_tool_rounds (env : Env) (sys : String) (B : Int)
    (r : Nat → String)
    (hok : ∀ j s p, env.ollama j s p = Except.ok (r j))
    (hne : ∀ j, (extract_tool_calls (r j)).isEmpty = false) :
    ∀ d : Nat, 1 ≤ d → ∀ (i : Nat) (u : String) (h : List Turn),
      (i : Int) + (d : Int) = B →
      queryGo env sys B d i i u h =
        { answer := some (r (i + d)), modelCalls := d + 1,
          toolInvocations := invsRange r i d } := by
  intro d
  induction d with
  | zero => intro h0; omega
  | succ n ih =>
    intro _ i u h hinv
    rcases Nat.eq_zero_or_pos n with hn0 | hn0
    · subst hn0
      have hlast : ((i : Nat) : Int) = B - 1 := by push_cast at hinv ⊢; omega
      simp [queryGo, hok, hne i, hlast, invsRange, roundInvs]
    · have hlast : ¬(((i : Nat) : Int) = B - 1) := by push_cast at hinv ⊢; omega
      simp only [queryGo, hok, hne, Bool.false_eq_true, if_false, hlast, if_neg,
        not_false_eq_true]
      rw [ih hn0 (i + 1)]
      · simp only [RunResult.mk.injEq]
        refine ⟨by rw [show i + 1 + n = i + (n + 1) from by omega], by omega, ?_⟩
        simp [invsRange, roundInvs]
      · push_cast at hinv ⊢; omega

/-- C8: for every budget `B ≥ 1` and every behaviour of the collaborators
the loop terminates with an answer, making at most `B + 1` gateway calls
(`B` regular rounds plus the one forced final call); and when every reply
keeps requesting tools (and the gateway never fails), exactly `B + 1`
calls are made and the text of the forced final call — oracle index `B` —
is returned as the answer regardless of whether it still requests tools,
with all `B` rounds of invocations forwarded to the executor. -/
theorem c8_budget_bound (env : Env) (tools : List ToolDescriptor)
    (msg : String) (B : Int) (hB : 1 ≤ B) :
    (query_ollama_with_tools env tools msg B).modelCalls ≤ B.toNat + 1
    ∧ (query_ollama_with_tools env tools msg B).answer.isSome = true
    ∧ ∀ r : Nat → String,
        (∀ j s p, env.ollama j s p = Except.ok (r j)) →
        (∀ j, (extract_tool_calls (r j)).isEmpty = false) →
        query_ollama_with_tools env tools msg B =
          { answer := some (r B.toNat), modelCalls := B.toNat + 1,
            toolInvocations := invsRange r 0 B.toNat } := by
  have hBtn : ((B.toNat : Int)) = B := Int.toNat_of_nonneg (by omega)
  refine ⟨?_, ?_, ?_⟩
  · exact queryGo_modelCalls_le env (system_prompt_text tools) B B.toNat 0 0 msg []
  · refine queryGo_answer_isSome env (system_prompt_text tools) B B.toNat 0 0 msg [] ?_ ?_
    · omega
    · push_cast
      omega
  · intro r hok hne
    have h := queryGo_all_tool_rounds env (system_prompt_text tools) B r hok hne
      B.toNat (by omega) 0 msg [] (by push_cast; omega)
    unfold query_ollama_with_tools
    simpa using h

/-- C8, witness: budget 2 over a gateway whose every reply requests the
`sum` tool makes 3 gateway calls and returns the third reply as-is. -/
theorem c8_witness :
    query_ollama_with_tools envAlwaysTool server_tools ("hi") 2 =
      { answer := some toolReplyText, modelCalls := 3,
        toolInvocations :=
          [(JsonVal.str ("sum"), [("a", JsonVal.num 1), ("b", JsonVal.num 2)]),
           (JsonVal.str ("sum"), [("a", JsonVal.num 1), ("b", JsonVal.num 2)])] } := by
  have h := (c8_budget_bound envAlwaysTool server_tools ("hi") 2 (by decide)).2.2
    (fun _ => toolReplyText) (fun j s p => rfl) (fun j => rfl)
  exact h

/-- String append is associative (on the list-of-characters model). -/
theorem strAppend_assoc (a b c : String) : a ++ b ++ c = a ++ (b ++ c) := by
  cases a with
  | mk da =>
    cases b with
    | mk db =>
      cases c with
      | mk dc =>
        show String.mk (da ++ db ++ dc) = String.mk (da ++ (db ++ dc))
        rw [List.append_assoc]

/-- The empty string is a right identity. -/
theorem strAppend_empty (a : String) : a ++ "" = a := by
  cases a with
  | mk da =>
    show String.mk (da ++ []) = String.mk da
    rw [List.append_nil]

/-- The `+=` accumulation of `buildContextPrompt` factors as the initial
prompt followed by the independent rendering of each window line. -/
theorem foldl_renderLines (l : List Turn) :
    ∀ init : String,
      l.foldl (fun acc msg => acc ++ msg.role ++ ": " ++ pySlice msg.content 200 ++ "...\n") init
        = init ++ renderLines l := by
  induction l with
  | nil => intro init; simp [renderLines, strAppend_empty]
  | cons t ts ih =>
    intro init
    simp only [List.foldl_cons, renderLines]
    rw [ih]
    simp [strAppend_assoc]

/-- C9: on every iteration after the first, the prompt body sent to the
model is the current user message, the context header, and a rendered
window of at most the last 4 turns of the stored history — a pure read
view (a suffix of the history, which is not modified by rendering) — each
turn rendered as a role-prefixed line whose content is truncated to at
most 200 characters and followed by the `...` elision marker. -/
theorem c9_window_prompt (iteration : Nat) (u : String) (hist : List Turn)
    (hit : 1 ≤ iteration) :
    promptAt iteration u hist
      = (u ++ "\n\n[Контекст попередніх кроків]\n")
        ++ renderLines (hist.drop (hist.length - 4))
    ∧ (hist.drop (hist.length - 4)).length ≤ 4
    ∧ hist.drop (hist.length - 4) <:+ hist
    ∧ ∀ t ∈ hist.drop (hist.length - 4), (pySlice t.content 200).length ≤ 200 := by
  refine ⟨?_, ?_, ?_, ?_⟩
  · have h0 : ¬iteration = 0 := by omega
    simp only [promptAt, h0, if_false, buildContextPrompt]
    exact foldl_renderLines _ _
  · simp only [List.length_drop]
    omega
  · exact List.drop_suffix _ _
  · intro t ht
    show (String.mk (t.content.data.take 200)).length ≤ 200
    show (t.content.data.take 200).length ≤ 200
    simp [List.length_take]

/-- C9, witness: iteration 1 over a five-turn history renders only the
last four turns. -/
theorem c9_witness :
    promptAt 1 ("next") [⟨"user", "t1"⟩, ⟨"assistant", "t2"⟩, ⟨"user", "t3"⟩,
        ⟨"assistant", "t4"⟩, ⟨"user", "t5"⟩]
      = ("next" ++ "\n\n[Контекст попередніх кроків]\n")
        ++ renderLines [⟨"assistant", "t2"⟩, ⟨"user", "t3"⟩, ⟨"assistant", "t4"⟩,
            ⟨"user", "t5"⟩]
    ∧ ([⟨"user", "t1"⟩, ⟨"assistant", "t2"⟩, ⟨"user", "t3"⟩, ⟨"assistant", "t4"⟩,
        (⟨"user", "t5"⟩ : Turn)].drop (5 - 4)).length ≤ 4 := by
  have h := c9_window_prompt 1 ("next") [⟨"user", "t1"⟩, ⟨"assistant", "t2"⟩,
    ⟨"user", "t3"⟩, ⟨"assistant", "t4"⟩, ⟨"user", "t5"⟩] (by decide)
  exact ⟨h.1, h.2.1⟩

/-! ## Claims about the Model Gateway -/

/-- C5, counterexample: a backend response that decodes to an object whose
reply field is present but empty returns the empty string itself, not the
placeholder (`data.get` only falls back when the key is absent); and a
response that decodes successfully to a non-object (a JSON array) raises —
it does not return — refuting both "empty reply field yields the
placeholder" and "every successfully decoded response returns without
error". -/
theorem c5_empty_reply_not_placeholder :
    call_ollama (OllamaHttp.decoded (JsonVal.obj [("response", JsonVal.str (""))]))
      = Except.ok (JsonVal.str (""))
    ∧ ("" : String) ≠ "Помилка: порожня відповідь від моделі"
    ∧ call_ollama (OllamaHttp.decoded (JsonVal.arr []))
      = Except.error ("Помилка при запиті до Ollama: \u0027list\u0027 object has no attribute \u0027get\u0027") := by
  refine ⟨rfl, by decide, rfl⟩

/-- C5, amended: for a backend response that decodes to a JSON object,
`_call_ollama` returns without error: the raw value of the reply field
when it is present — even when it is the empty string — and the
placeholder string only when the field is missing.  Transport-level
failures (unreachable, other request errors, undecodable body) raise, and
so does a body that decodes to a non-object. -/
theorem c5_reply_field (fields : List (String × JsonVal)) :
    (∀ v, dictGet fields ("response") = some v →
        call_ollama (OllamaHttp.decoded (JsonVal.obj fields)) = Except.ok v)
    ∧ (dictGet fields ("response") = none →
        call_ollama (OllamaHttp.decoded (JsonVal.obj fields))
          = Except.ok (JsonVal.str ("Помилка: порожня відповідь від моделі")))
    ∧ (∀ e, call_ollama (OllamaHttp.otherExn e)
        = Except.error ("Помилка при запиті до Ollama: " ++ e))
    ∧ call_ollama OllamaHttp.connectError
        = Except.error ("Ollama недоступна на http://localhost:11434")
    ∧ (∀ xs, call_ollama (OllamaHttp.decoded (JsonVal.arr xs))
        = Except.error ("Помилка при запиті до Ollama: \u0027list\u0027 object has no attribute \u0027get\u0027")) := by
  refine ⟨?_, ?_, fun e => rfl, rfl, fun xs => rfl⟩
  · intro v hv
    simp [call_ollama, hv]
  · intro hv
    simp [call_ollama, hv]

/-- C5, witness: a present, non-empty reply field is returned raw. -/
theorem c5_witness :
    call_ollama (OllamaHttp.decoded (JsonVal.obj [("response", JsonVal.str ("Привіт!"))]))
      = Except.ok (JsonVal.str ("Привіт!")) :=
  (c5_reply_field [("response", JsonVal.str ("Привіт!"))]).1 (JsonVal.str ("Привіт!")) rfl
